import Mathlib

/-!
Verification of the FeOs thermodynamic core against its documentation.

The repository ships only notebook material: the Python `PyPengRobinson`
equation of state (embedded below as `pyPengRobinsonInit` and friends) and
worked examples driving the Rust engine (`State`, dual numbers, solvers).
The engine itself is not part of the sources, so it is modelled here from
the specification: dual-number arithmetic over exact rationals (and over
the reals where calculus is needed), a `State` with a lazily populated
derivative cache, contribution-scoped Helmholtz evaluation, the density
solver with its two-sided default initialization, and the pure-substance
VLE solver.
-/

/-- Modelled from the spec: a first-order dual number (`Dual64` in the
notebook) — one real and one non-real component; the engine source is not in
the repository.  Exact rationals stand in for the 64-bit floats. -/
structure DualQ where
  re : ℚ
  eps : ℚ
deriving DecidableEq, Repr

/-- Modelled from the spec: a second-order hyper-dual number (`HyperDual64`)
with three non-real components ε1, ε2, ε1ε2. -/
structure HyperDualQ where
  re : ℚ
  eps1 : ℚ
  eps2 : ℚ
  eps12 : ℚ
deriving DecidableEq, Repr

instance : Add DualQ := ⟨fun a b => ⟨a.re + b.re, a.eps + b.eps⟩⟩

instance : Add HyperDualQ :=
  ⟨fun a b => ⟨a.re + b.re, a.eps1 + b.eps1, a.eps2 + b.eps2, a.eps12 + b.eps12⟩⟩

@[simp] theorem DualQ_add_re (a b : DualQ) : (a + b).re = a.re + b.re := rfl

@[simp] theorem DualQ_add_eps (a b : DualQ) : (a + b).eps = a.eps + b.eps := rfl

@[simp] theorem HyperDualQ_add_re (a b : HyperDualQ) : (a + b).re = a.re + b.re := rfl

@[simp] theorem HyperDualQ_add_eps12 (a b : HyperDualQ) :
    (a + b).eps12 = a.eps12 + b.eps12 := rfl

/-- The state record handed to an equation of state's `helmholtz_energy`
function; its data type `α` is ℚ, `DualQ` or `HyperDualQ` depending on the
derivative being computed (mirrors `StateHD` in the notebook). -/
structure StateHD (α : Type) where
  moles : List α
  volume : α
  temperature : α
deriving DecidableEq, Repr

/-- Modelled from the spec: the Helmholtz-energy contract of an EOS model,
split into its ideal-gas and residual additive parts, one evaluation function
per dual-number order, plus the maximum-density callback.  The actual trait
lives in the Rust engine, which is not in the repository. -/
structure HelmholtzModel where
  idealGas0 : StateHD ℚ → ℚ
  residual0 : StateHD ℚ → ℚ
  idealGas1 : StateHD DualQ → DualQ
  residual1 : StateHD DualQ → DualQ
  idealGas2 : StateHD HyperDualQ → HyperDualQ
  residual2 : StateHD HyperDualQ → HyperDualQ
  maxDensity : ℚ

/-- The contribution selector exposed as `Contributions` in the notebook. -/
inductive Contributions where
  | IdealGas
  | Residual
  | ResidualP
  | Total
deriving DecidableEq, Repr

/-- Modelled from the spec: contribution-scoped Helmholtz energy at order 0.
`Total` is the sum of the ideal-gas and the residual part at fixed (N, V, T).
`ResidualP` uses an ideal-gas reference at fixed pressure; that reference
shift is not modelled here (no claim depends on it), so it evaluates the
fixed-volume residual part. -/
def helm0 (m : HelmholtzModel) (c : Contributions) (s : StateHD ℚ) : ℚ :=
  match c with
  | .IdealGas => m.idealGas0 s
  | .Residual => m.residual0 s
  | .ResidualP => m.residual0 s
  | .Total => m.idealGas0 s + m.residual0 s

/-- Modelled from the spec: contribution-scoped Helmholtz energy at first
dual order (see `helm0` for the treatment of `ResidualP`). -/
def helm1 (m : HelmholtzModel) (c : Contributions) (s : StateHD DualQ) : DualQ :=
  match c with
  | .IdealGas => m.idealGas1 s
  | .Residual => m.residual1 s
  | .ResidualP => m.residual1 s
  | .Total => m.idealGas1 s + m.residual1 s

/-- Modelled from the spec: contribution-scoped Helmholtz energy at
hyper-dual order (see `helm0` for the treatment of `ResidualP`). -/
def helm2 (m : HelmholtzModel) (c : Contributions) (s : StateHD HyperDualQ) : HyperDualQ :=
  match c with
  | .IdealGas => m.idealGas2 s
  | .Residual => m.residual2 s
  | .ResidualP => m.residual2 s
  | .Total => m.idealGas2 s + m.residual2 s

/-- Which raw partial derivative of the Helmholtz energy is requested: the
value itself, first derivatives w.r.t. volume, temperature or one mole
number, and the second derivatives needed by the worked examples. -/
inductive DerivSig where
  | a0
  | dv
  | dt
  | dn (i : Nat)
  | d2vt
  | d2v2
  | d2t2
  | d2nv (i : Nat)
deriving DecidableEq, Repr

/-- Moles vector lifted to dual numbers with all non-real parts zero. -/
def molesD (N : List ℚ) : List DualQ := N.map fun n => ⟨n, 0⟩

/-- Moles vector lifted to dual numbers with the non-real part of component
`i` set to one and all others zero. -/
def molesDn : List ℚ → Nat → List DualQ
  | [], _ => []
  | n :: rest, 0 => ⟨n, 1⟩ :: molesD rest
  | n :: rest, i + 1 => ⟨n, 0⟩ :: molesDn rest i

/-- Moles vector lifted to hyper-dual numbers with all non-real parts zero. -/
def molesH (N : List ℚ) : List HyperDualQ := N.map fun n => ⟨n, 0, 0, 0⟩

/-- Moles vector lifted to hyper-dual numbers with ε1 of component `i` set to
one. -/
def molesHn : List ℚ → Nat → List HyperDualQ
  | [], _ => []
  | n :: rest, 0 => ⟨n, 1, 0, 0⟩ :: molesH rest
  | n :: rest, i + 1 => ⟨n, 0, 0, 0⟩ :: molesHn rest i

/-- Modelled from the spec: the engine's seeding and extraction of one raw
Helmholtz-energy derivative.  For each signature it builds the input of the
minimal dual order with exactly the differentiated variable's non-real parts
set to one, invokes the contract once, and extracts the matching non-real
component. -/
def rawDeriv (m : HelmholtzModel) (c : Contributions) (N : List ℚ) (V T : ℚ) :
    DerivSig → ℚ
  | .a0 => helm0 m c ⟨N, V, T⟩
  | .dv => (helm1 m c ⟨molesD N, ⟨V, 1⟩, ⟨T, 0⟩⟩).eps
  | .dt => (helm1 m c ⟨molesD N, ⟨V, 0⟩, ⟨T, 1⟩⟩).eps
  | .dn i => (helm1 m c ⟨molesDn N i, ⟨V, 0⟩, ⟨T, 0⟩⟩).eps
  | .d2vt => (helm2 m c ⟨molesH N, ⟨V, 1, 0, 0⟩, ⟨T, 0, 1, 0⟩⟩).eps12
  | .d2v2 => (helm2 m c ⟨molesH N, ⟨V, 1, 1, 0⟩, ⟨T, 0, 0, 0⟩⟩).eps12
  | .d2t2 => (helm2 m c ⟨molesH N, ⟨V, 0, 0, 0⟩, ⟨T, 1, 1, 0⟩⟩).eps12
  | .d2nv i => (helm2 m c ⟨molesHn N i, ⟨V, 0, 1, 0⟩, ⟨T, 0, 0, 0⟩⟩).eps12

/-- Modelled from the spec: a `State` owns its natural variables (moles in
particle units as printed by the notebook, volume, temperature) and a
per-instance derivative cache keyed on derivative signature and contribution
subset. -/
structure StateQ where
  moles : List ℚ
  volume : ℚ
  temperature : ℚ
  cache : List ((DerivSig × Contributions) × ℚ)
deriving DecidableEq, Repr

/-- A freshly constructed state: variables set directly, cache empty. -/
def mkStateQ (N : List ℚ) (V T : ℚ) : StateQ := ⟨N, V, T, []⟩

/-- First-match association lookup in a state's derivative cache. -/
def lookupCache : List ((DerivSig × Contributions) × ℚ) →
    DerivSig × Contributions → Option ℚ
  | [], _ => none
  | (k1, v) :: rest, k => if k1 = k then some v else lookupCache rest k

/-- Result of a cached derivative query: the value, the state afterwards, and
how many times the model's `helmholtz_energy` function was invoked. -/
structure QueryResult where
  value : ℚ
  state : StateQ
  invocations : Nat
deriving DecidableEq, Repr

/-- Modelled from the spec: lazily cached derivative query.  A cache hit
returns the stored value without invoking the Helmholtz contract; a miss
invokes it once and stores the result in this state's cache. -/
def StateQ.query (m : HelmholtzModel) (s : StateQ) (k : DerivSig × Contributions) :
    QueryResult :=
  match lookupCache s.cache k with
  | some v => ⟨v, s, 0⟩
  | none =>
      let v := rawDeriv m k.2 s.moles s.volume s.temperature k.1
      ⟨v, { s with cache := (k, v) :: s.cache }, 1⟩

@[simp] theorem lookupCache_cons_self (k : DerivSig × Contributions) (v : ℚ)
    (rest : List ((DerivSig × Contributions) × ℚ)) :
    lookupCache ((k, v) :: rest) k = some v := by
  simp [lookupCache]

/-- Contribution-scoped pressure, `p = −∂A/∂V` (reduced units). -/
def StateQ.pressureOf (m : HelmholtzModel) (s : StateQ) (c : Contributions) : ℚ :=
  -(rawDeriv m c s.moles s.volume s.temperature .dv)

/-- Total pressure of a state, the default contribution. -/
def StateQ.pressure (m : HelmholtzModel) (s : StateQ) : ℚ := s.pressureOf m .Total

/-- Contribution-scoped molar entropy, `s = −(∂A/∂T)/n` (reduced units). -/
def StateQ.molarEntropy (m : HelmholtzModel) (s : StateQ) (c : Contributions) : ℚ :=
  -(rawDeriv m c s.moles s.volume s.temperature .dt) / s.moles.sum

/-- Contribution-scoped Helmholtz energy of a state. -/
def StateQ.helmholtzOf (m : HelmholtzModel) (s : StateQ) (c : Contributions) : ℚ :=
  rawDeriv m c s.moles s.volume s.temperature .a0

/-- Chemical potential of component 0, `μ = ∂A/∂N₀` (reduced units). -/
def StateQ.chemicalPotential (m : HelmholtzModel) (s : StateQ) : ℚ :=
  rawDeriv m .Total s.moles s.volume s.temperature (.dn 0)

/-- Molar density of a state (particle units, as printed by the notebook). -/
def StateQ.densityOf (s : StateQ) : ℚ := s.moles.sum / s.volume

/-- Total pressure as a function of the variables, used by the solvers. -/
def presFn (m : HelmholtzModel) (N : List ℚ) (V T : ℚ) : ℚ :=
  -(rawDeriv m .Total N V T .dv)

/-- Volume derivative of the pressure, `∂p/∂V = −∂²A/∂V²`, obtained from a
hyper-dual evaluation. -/
def dpdvFn (m : HelmholtzModel) (N : List ℚ) (V T : ℚ) : ℚ :=
  -(rawDeriv m .Total N V T .d2v2)

/-- Chemical potential of component 0 as a function of the variables. -/
def muFn (m : HelmholtzModel) (N : List ℚ) (V T : ℚ) : ℚ :=
  rawDeriv m .Total N V T (.dn 0)

/-- Volume derivative of the chemical potential, `∂μ/∂V = ∂²A/∂N₀∂V`. -/
def dmudvFn (m : HelmholtzModel) (N : List ℚ) (V T : ℚ) : ℚ :=
  rawDeriv m .Total N V T (.d2nv 0)

/-- Gibbs energy `g = A + p·V` at fixed (N, T, target pressure), the quantity
the default density solver minimizes over its candidate roots. -/
def gibbsAt (m : HelmholtzModel) (N : List ℚ) (T p V : ℚ) : ℚ :=
  helm0 m .Total ⟨N, V, T⟩ + p * V

/-- The `density_initialization` keyword of the `State` constructor. -/
inductive DensityInit where
  | vapor
  | liquid
  | density (d : ℚ)
deriving DecidableEq, Repr

/-- Low-density (vapor) starting volume: ideal-gas estimate `N·T/p`. -/
def vaporStartV (N : List ℚ) (T p : ℚ) : ℚ := N.sum * T / p

/-- High-density (liquid) starting volume: 90 % of the model's maximum
packing density. -/
def liquidStartV (m : HelmholtzModel) (N : List ℚ) : ℚ :=
  N.sum / (9 / 10 * m.maxDensity)

/-- Starting volume selected by the `density_initialization` keyword. -/
def initialVolume (m : HelmholtzModel) (N : List ℚ) (T p : ℚ) : DensityInit → ℚ
  | .vapor => vaporStartV N T p
  | .liquid => liquidStartV m N
  | .density d => N.sum / d

/-- Modelled from the spec: the Newton-type density solver.  It iterates on
the pressure residual `p(V) − p_target` with the volume derivative of the
pressure as update slope, accepts only a physical volume (positive, density
within the model's maximum packing bound) meeting the tolerance, and reports
failure (`none`) when the iteration bound is exhausted or the slope
degenerates. -/
def newtonV (m : HelmholtzModel) (N : List ℚ) (T p tol : ℚ) :
    Nat → ℚ → Option ℚ
  | 0, _ => none
  | fuel + 1, V =>
      if 0 < V ∧ N.sum / V ≤ m.maxDensity ∧ |presFn m N V T - p| ≤ tol then
        some V
      else if dpdvFn m N V T = 0 then none
      else newtonV m N T p tol fuel (V - (presFn m N V T - p) / dpdvFn m N V T)

/-- Modelled from the spec: the `State` constructor from (model, N, T, p).
With an explicit `density_initialization` it runs the solver from the
requested start; when unspecified it attempts both the low- and the
high-density start and, if both converge, returns the root with the lower
Gibbs energy. -/
def fromTP (m : HelmholtzModel) (N : List ℚ) (T p tol : ℚ) (maxIter : Nat) :
    Option DensityInit → Option StateQ
  | some di => (newtonV m N T p tol maxIter (initialVolume m N T p di)).map
      fun V => mkStateQ N V T
  | none =>
      match newtonV m N T p tol maxIter (vaporStartV N T p),
            newtonV m N T p tol maxIter (liquidStartV m N) with
      | some Vv, some Vl =>
          some (mkStateQ N (if gibbsAt m N T p Vv ≤ gibbsAt m N T p Vl then Vv else Vl) T)
      | some Vv, none => some (mkStateQ N Vv T)
      | none, some Vl => some (mkStateQ N Vl T)
      | none, none => none

/-- A pure-substance phase equilibrium: one vapor and one liquid state. -/
structure PhaseEq where
  vapor : StateQ
  liquid : StateQ
deriving DecidableEq, Repr

/-- Modelled from the spec: one Newton step of the pure-substance VLE system,
solving `p(Vv) = p(Vl)` and `μ(Vv) = μ(Vl)` for the two volumes at fixed
temperature, with the analytic Jacobian supplied by the hyper-dual derivative
queries; fails when the Jacobian is singular. -/
def vleStep (m : HelmholtzModel) (T Vv Vl : ℚ) : Option (ℚ × ℚ) :=
  let r1 := presFn m [1] Vv T - presFn m [1] Vl T
  let r2 := muFn m [1] Vv T - muFn m [1] Vl T
  let a := dpdvFn m [1] Vv T
  let b := -(dpdvFn m [1] Vl T)
  let c := dmudvFn m [1] Vv T
  let d := -(dmudvFn m [1] Vl T)
  let det := a * d - b * c
  if det = 0 then none
  else some (Vv - (d * r1 - b * r2) / det, Vl - (-c * r1 + a * r2) / det)

/-- Modelled from the spec: the fixed-temperature pure-substance VLE loop.  A
candidate pair is accepted only when both volumes are positive, the liquid
volume is strictly below the vapor volume, and pressures and chemical
potentials agree within the tolerance; otherwise a Newton step is taken until
the iteration bound is exhausted. -/
def pureTLoop (m : HelmholtzModel) (T tol : ℚ) : Nat → ℚ → ℚ → Option PhaseEq
  | 0, _, _ => none
  | fuel + 1, Vv, Vl =>
      if 0 < Vv ∧ 0 < Vl ∧ Vl < Vv ∧
          |presFn m [1] Vl T - presFn m [1] Vv T| ≤ tol ∧
          |muFn m [1] Vl T - muFn m [1] Vv T| ≤ tol then
        some ⟨mkStateQ [1] Vv T, mkStateQ [1] Vl T⟩
      else
        match vleStep m T Vv Vl with
        | none => none
        | some (Vv2, Vl2) => pureTLoop m T tol fuel Vv2 Vl2

/-- Modelled from the spec: `PhaseEquilibrium.pure_t` — two-phase equilibrium
of a pure substance at fixed temperature, started from a low-density vapor
volume and a high-density liquid volume. -/
def PhaseEquilibrium.pure_t (m : HelmholtzModel) (T tol : ℚ) (maxIter : Nat) :
    Option PhaseEq :=
  pureTLoop m T tol maxIter (1000 * liquidStartV m [1]) (liquidStartV m [1])

/-- Modelled from the spec: the fixed-pressure pure-substance VLE loop; the
acceptance additionally requires the common pressure to match the target, and
the temperature is updated by the saturation heuristic `T·p_target/p`. -/
def purePLoop (m : HelmholtzModel) (pT tol : ℚ) : Nat → ℚ → ℚ → ℚ → Option PhaseEq
  | 0, _, _, _ => none
  | fuel + 1, T, Vv, Vl =>
      if 0 < Vv ∧ 0 < Vl ∧ Vl < Vv ∧
          |presFn m [1] Vl T - presFn m [1] Vv T| ≤ tol ∧
          |muFn m [1] Vl T - muFn m [1] Vv T| ≤ tol ∧
          |presFn m [1] Vv T - pT| ≤ tol then
        some ⟨mkStateQ [1] Vv T, mkStateQ [1] Vl T⟩
      else
        match vleStep m T Vv Vl with
        | none => none
        | some (Vv2, Vl2) =>
            if presFn m [1] Vv2 T ≤ 0 then none
            else purePLoop m pT tol fuel (T * pT / presFn m [1] Vv2 T) Vv2 Vl2

/-- Modelled from the spec: `PhaseEquilibrium.pure_p` — two-phase equilibrium
of a pure substance at fixed pressure, iterating the temperature as well. -/
def PhaseEquilibrium.pure_p (m : HelmholtzModel) (pT tol T0 : ℚ) (maxIter : Nat) :
    Option PhaseEq :=
  purePLoop m pT tol maxIter T0 (1000 * liquidStartV m [1]) (liquidStartV m [1])

/-- Avogadro's number (as the notebook uses it, per mole). -/
def NAvogadro : ℚ := 602214076 * 10 ^ 15

/-- Modelled from the spec: the default `State(model, volume, temperature)`
constructor for a pure substance.  If the amount of substance is omitted, the
total amount is set to the inverse of Avogadro's number, so the moles vector
handed to the Helmholtz contract (in particle units, as the notebook prints
it) is `[1.0]`. -/
def StateQ.makePure (totalMoles : Option ℚ) (V T : ℚ) : StateQ :=
  let n := totalMoles.getD (1 / NAvogadro)
  ⟨[n * NAvogadro], V, T, []⟩

/-- Total amount of substance of a state, in moles. -/
def StateQ.totalMolesSI (s : StateQ) : ℚ := s.moles.sum / NAvogadro

/-- Trace of one property evaluation: the value, the list of inputs handed to
the Helmholtz contract, and the number of contract invocations. -/
structure EvalTrace (α : Type) where
  value : ℚ
  inputs : List (StateHD α)
  invocations : Nat

/-- Modelled from the spec: the `helmholtz_energy` query needs no derivative,
so the contract is evaluated once on the plain state variables. -/
def helmholtzTrace (m : HelmholtzModel) (s : StateQ) : EvalTrace ℚ :=
  let inp : StateHD ℚ := ⟨s.moles, s.volume, s.temperature⟩
  ⟨helm0 m .Total inp, [inp], 1⟩

/-- Modelled from the spec: the `pressure` query needs `∂A/∂V`, so the
contract is evaluated once on first-order duals with the volume's non-real
part set to one. -/
def pressureTrace (m : HelmholtzModel) (s : StateQ) : EvalTrace DualQ :=
  let inp : StateHD DualQ := ⟨molesD s.moles, ⟨s.volume, 1⟩, ⟨s.temperature, 0⟩⟩
  ⟨-(helm1 m .Total inp).eps, [inp], 1⟩

/-- Modelled from the spec: the `molar_entropy` query needs `∂A/∂T`, so the
contract is evaluated once on first-order duals with the temperature's
non-real part set to one. -/
def entropyTrace (m : HelmholtzModel) (s : StateQ) : EvalTrace DualQ :=
  let inp : StateHD DualQ := ⟨molesD s.moles, ⟨s.volume, 0⟩, ⟨s.temperature, 1⟩⟩
  ⟨-(helm1 m .Total inp).eps / s.moles.sum, [inp], 1⟩

/-- Modelled from the spec: the `joule_thomson` query needs the three second
derivatives `∂²A/∂V∂T`, `∂²A/∂V²` and `∂²A/∂T²`, so the contract is evaluated
exactly three times on hyper-duals with the seeds the notebook prints. -/
def jouleThomsonTrace (m : HelmholtzModel) (s : StateQ) : EvalTrace HyperDualQ :=
  let i1 : StateHD HyperDualQ :=
    ⟨molesH s.moles, ⟨s.volume, 1, 0, 0⟩, ⟨s.temperature, 0, 1, 0⟩⟩
  let i2 : StateHD HyperDualQ :=
    ⟨molesH s.moles, ⟨s.volume, 1, 1, 0⟩, ⟨s.temperature, 0, 0, 0⟩⟩
  let i3 : StateHD HyperDualQ :=
    ⟨molesH s.moles, ⟨s.volume, 0, 0, 0⟩, ⟨s.temperature, 1, 1, 0⟩⟩
  let dpdt := -(helm2 m .Total i1).eps12
  let dpdv := -(helm2 m .Total i2).eps12
  let cv := -(s.temperature * (helm2 m .Total i3).eps12)
  let cp := cv - s.temperature * dpdt ^ 2 / dpdv
  ⟨-(s.volume + s.temperature * dpdt / dpdv) / cp, [i1, i2, i3], 3⟩

/-- The per-component parameters the Peng-Robinson constructor stores when
its length check passes. -/
structure PengRobinsonParams where
  n : Nat
  tc : List ℚ
  pc : List ℚ
  omega : List ℚ
  mw : List ℚ
deriving DecidableEq, Repr

/-- Embedding of `PyPengRobinson.__init__` from the notebook: `self.n` is the
length of `critical_temperature`, and a `ValueError` is raised iff
`len(set((len(critical_temperature), len(critical_pressure),
len(acentric_factor)))) != 1`.  The length of `molar_weight` is not part of
the check. -/
def pyPengRobinsonInit (tc pc omega mw : List ℚ) : Except String PengRobinsonParams :=
  if ([tc.length, pc.length, omega.length].dedup).length ≠ 1 then
    Except.error "Input parameters must all have the same lenght."
  else
    Except.ok ⟨tc.length, tc, pc, omega, mw⟩

/-- Modelled from the spec: a first-order dual number over the reals, used to
state exactness of the derivatives (the engine's `Dual64` over `f64`). -/
structure Dual where
  re : ℝ
  eps : ℝ

namespace Dual

/-- Modelled from the spec: dual addition is componentwise. -/
noncomputable def add (a b : Dual) : Dual := ⟨a.re + b.re, a.eps + b.eps⟩

/-- Modelled from the spec: dual subtraction is componentwise. -/
noncomputable def sub (a b : Dual) : Dual := ⟨a.re - b.re, a.eps - b.eps⟩

/-- Modelled from the spec: dual multiplication follows the product rule. -/
noncomputable def mul (a b : Dual) : Dual :=
  ⟨a.re * b.re, a.eps * b.re + a.re * b.eps⟩

/-- Modelled from the spec: dual division follows the quotient rule. -/
noncomputable def div (a b : Dual) : Dual :=
  ⟨a.re / b.re, (a.eps * b.re - a.re * b.eps) / b.re ^ 2⟩

/-- Modelled from the spec: natural power of a dual number. -/
noncomputable def npow (a : Dual) (n : ℕ) : Dual :=
  ⟨a.re ^ n, (n : ℝ) * a.re ^ (n - 1) * a.eps⟩

/-- Modelled from the spec: exponential of a dual number. -/
noncomputable def exp (a : Dual) : Dual :=
  ⟨Real.exp a.re, a.eps * Real.exp a.re⟩

/-- Modelled from the spec: logarithm of a dual number. -/
noncomputable def log (a : Dual) : Dual :=
  ⟨Real.log a.re, a.eps / a.re⟩

/-- Modelled from the spec: square root of a dual number. -/
noncomputable def sqrt (a : Dual) : Dual :=
  ⟨Real.sqrt a.re, a.eps / (2 * Real.sqrt a.re)⟩

end Dual

/-- The analytic functions built from the elementary operations the dual
engine supports: constants, the variable, field operations, natural powers,
`exp`, `log` and `sqrt`. -/
inductive Expr where
  | const (c : ℝ)
  | var
  | add (e1 e2 : Expr)
  | sub (e1 e2 : Expr)
  | mul (e1 e2 : Expr)
  | div (e1 e2 : Expr)
  | npow (e : Expr) (n : ℕ)
  | exp (e : Expr)
  | log (e : Expr)
  | sqrt (e : Expr)

/-- Real evaluation of an expression. -/
noncomputable def Expr.evalR (e : Expr) : ℝ → ℝ :=
  match e with
  | .const c => fun _ => c
  | .var => fun x => x
  | .add e1 e2 => fun x => e1.evalR x + e2.evalR x
  | .sub e1 e2 => fun x => e1.evalR x - e2.evalR x
  | .mul e1 e2 => fun x => e1.evalR x * e2.evalR x
  | .div e1 e2 => fun x => e1.evalR x / e2.evalR x
  | .npow e n => fun x => e.evalR x ^ n
  | .exp e => fun x => Real.exp (e.evalR x)
  | .log e => fun x => Real.log (e.evalR x)
  | .sqrt e => fun x => Real.sqrt (e.evalR x)

/-- Dual-number evaluation of an expression: constants carry a zero non-real
part and the variable is the seed itself. -/
noncomputable def Expr.evalD (e : Expr) : Dual → Dual :=
  match e with
  | .const c => fun _ => ⟨c, 0⟩
  | .var => fun d => d
  | .add e1 e2 => fun d => (e1.evalD d).add (e2.evalD d)
  | .sub e1 e2 => fun d => (e1.evalD d).sub (e2.evalD d)
  | .mul e1 e2 => fun d => (e1.evalD d).mul (e2.evalD d)
  | .div e1 e2 => fun d => (e1.evalD d).div (e2.evalD d)
  | .npow e n => fun d => (e.evalD d).npow n
  | .exp e => fun d => (e.evalD d).exp
  | .log e => fun d => (e.evalD d).log
  | .sqrt e => fun d => (e.evalD d).sqrt

/-- Domain of an expression at a point: divisors do not vanish and `log` and
`sqrt` see positive arguments. -/
def Expr.Dom (e : Expr) (x : ℝ) : Prop :=
  match e with
  | .const _ => True
  | .var => True
  | .add e1 e2 => e1.Dom x ∧ e2.Dom x
  | .sub e1 e2 => e1.Dom x ∧ e2.Dom x
  | .mul e1 e2 => e1.Dom x ∧ e2.Dom x
  | .div e1 e2 => e1.Dom x ∧ e2.Dom x ∧ e2.evalR x ≠ 0
  | .npow e _ => e.Dom x
  | .exp e => e.Dom x
  | .log e => e.Dom x ∧ 0 < e.evalR x
  | .sqrt e => e.Dom x ∧ 0 < e.evalR x

/-- Modelled from the spec: the engine's derivative of an expression at a
point.  The seed's non-real step is fixed at unity — the definition takes no
step-size parameter, there is no user-tunable epsilon. -/
noncomputable def Expr.derivative (e : Expr) (x : ℝ) : ℝ :=
  (e.evalD ⟨x, 1⟩).eps

/-- The typed failures of the checked dual operations: division by a zero
real part, and an arithmetic operation undefined for the given reals. -/
inductive DualError where
  | divisionByZero
  | domainError
deriving DecidableEq, Repr

/-- Modelled from the spec: checked dual division.  A divisor with zero real
part is rejected with a typed `divisionByZero` error instead of silently
propagating a non-number. -/
noncomputable def Dual.checkedDiv (a b : Dual) : Except DualError Dual :=
  if b.re = 0 then Except.error DualError.divisionByZero
  else Except.ok (a.div b)

/-- Modelled from the spec: checked real power of a dual number, with the
exponent given as a rational.  A fractional power of a negative real part is
rejected with a typed `domainError` instead of silently propagating a
non-number. -/
noncomputable def Dual.checkedPow (a : Dual) (q : ℚ) : Except DualError Dual :=
  if a.re < 0 ∧ q.den ≠ 1 then Except.error DualError.domainError
  else Except.ok ⟨a.re ^ (q : ℝ), a.eps * (q : ℝ) * a.re ^ ((q : ℝ) - 1)⟩

/-- Exactness of dual-number evaluation: on the whole domain of an
expression, the dual evaluation seeded at `⟨x, 1⟩` returns the function value
in the real part and the exact derivative in the non-real part. -/
theorem evalD_exact (e : Expr) (x : ℝ) (h : e.Dom x) :
    (e.evalD ⟨x, 1⟩).re = e.evalR x ∧
      HasDerivAt e.evalR (e.evalD ⟨x, 1⟩).eps x := by
  induction e with
  | const c =>
      exact ⟨rfl, hasDerivAt_const x c⟩
  | var =>
      exact ⟨rfl, hasDerivAt_id x⟩
  | add e1 e2 ih1 ih2 =>
      obtain ⟨h1, h2⟩ := h
      obtain ⟨hre1, hd1⟩ := ih1 h1
      obtain ⟨hre2, hd2⟩ := ih2 h2
      exact ⟨by simp [Expr.evalD, Expr.evalR, Dual.add, hre1, hre2],
        hd1.add hd2⟩
  | sub e1 e2 ih1 ih2 =>
      obtain ⟨h1, h2⟩ := h
      obtain ⟨hre1, hd1⟩ := ih1 h1
      obtain ⟨hre2, hd2⟩ := ih2 h2
      exact ⟨by simp [Expr.evalD, Expr.evalR, Dual.sub, hre1, hre2],
        hd1.sub hd2⟩
  | mul e1 e2 ih1 ih2 =>
      obtain ⟨h1, h2⟩ := h
      obtain ⟨hre1, hd1⟩ := ih1 h1
      obtain ⟨hre2, hd2⟩ := ih2 h2
      refine ⟨by simp [Expr.evalD, Expr.evalR, Dual.mul, hre1, hre2], ?_⟩
      have := hd1.mul hd2
      simpa [Expr.evalD, Expr.evalR, Dual.mul, hre1, hre2] using this
  | div e1 e2 ih1 ih2 =>
      obtain ⟨h1, h2, hz⟩ := h
      obtain ⟨hre1, hd1⟩ := ih1 h1
      obtain ⟨hre2, hd2⟩ := ih2 h2
      refine ⟨by simp [Expr.evalD, Expr.evalR, Dual.div, hre1, hre2], ?_⟩
      have := hd1.div hd2 hz
      simpa [Expr.evalD, Expr.evalR, Dual.div, hre1, hre2] using this
  | npow e n ih =>
      obtain ⟨hre, hd⟩ := ih h
      refine ⟨by simp [Expr.evalD, Expr.evalR, Dual.npow, hre], ?_⟩
      have := hd.pow n
      simpa [Expr.evalD, Expr.evalR, Dual.npow, hre] using this
  | exp e ih =>
      obtain ⟨hre, hd⟩ := ih h
      refine ⟨by simp [Expr.evalD, Expr.evalR, Dual.exp, hre], ?_⟩
      have := hd.exp
      simpa [Expr.evalD, Expr.evalR, Dual.exp, hre, mul_comm] using this
  | log e ih =>
      obtain ⟨hd0, hpos⟩ := h
      obtain ⟨hre, hd⟩ := ih hd0
      refine ⟨by simp [Expr.evalD, Expr.evalR, Dual.log, hre], ?_⟩
      have := hd.log (ne_of_gt hpos)
      simpa [Expr.evalD, Expr.evalR, Dual.log, hre] using this
  | sqrt e ih =>
      obtain ⟨hd0, hpos⟩ := h
      obtain ⟨hre, hd⟩ := ih hd0
      refine ⟨by simp [Expr.evalD, Expr.evalR, Dual.sqrt, hre], ?_⟩
      have := hd.sqrt (ne_of_gt hpos)
      simpa [Expr.evalD, Expr.evalR, Dual.sqrt, hre] using this

/-- Claim C5: for every analytic function built from the supported elementary
operations, evaluating it on a dual number seeded with real part `x` and a
unit (exactly 1) non-real step yields a non-real component equal to the
closed-form derivative at `x` — exactly, hence in particular to machine
precision.  The step is fixed at unity: `Expr.derivative` seeds the non-real
part with the literal `1` and takes no step-size parameter, so no
user-tunable epsilon exists. -/
theorem dual_derivative_exact (e : Expr) (x : ℝ) (h : e.Dom x) :
    HasDerivAt e.evalR (e.derivative x) x :=
  (evalD_exact e x h).2

/-- Witness for `dual_derivative_exact` at `f = x·x`, `x = 3`: the non-real
component is the exact derivative 6. -/
theorem dual_derivative_exact_witness :
    (Expr.mul .var .var).Dom 3 ∧
      HasDerivAt (Expr.mul .var .var).evalR ((Expr.mul .var .var).derivative 3) 3 ∧
      (Expr.mul .var .var).derivative 3 = 6 :=
  ⟨⟨trivial, trivial⟩, dual_derivative_exact (.mul .var .var) 3 ⟨trivial, trivial⟩,
    by norm_num [Expr.derivative, Expr.evalD, Dual.mul]⟩

/-- Claim C8: checked dual division fails with a typed division-by-zero error
exactly when the divisor's real part is zero, checked powers fail with a
typed domain error on a fractional power of a negative real part, the two
errors are distinguishable, and every input yields either a value or a typed
error — never a silent non-number. -/
theorem checked_ops_typed_errors (a b : Dual) (q : ℚ) :
    (a.checkedDiv b = Except.error DualError.divisionByZero ↔ b.re = 0) ∧
    ((∃ c, a.checkedDiv b = Except.ok c) ↔ b.re ≠ 0) ∧
    (a.re < 0 → q.den ≠ 1 → a.checkedPow q = Except.error DualError.domainError) ∧
    (0 ≤ a.re → ∃ c, a.checkedPow q = Except.ok c) ∧
    DualError.divisionByZero ≠ DualError.domainError := by
  refine ⟨?_, ?_, ?_, ?_, by decide⟩
  · constructor
    · intro h
      by_contra hb
      rw [Dual.checkedDiv, if_neg hb] at h
      exact Except.noConfusion h
    · intro h
      rw [Dual.checkedDiv, if_pos h]
  · constructor
    · rintro ⟨c, hc⟩ hb
      rw [Dual.checkedDiv, if_pos hb] at hc
      exact Except.noConfusion hc
    · intro h
      exact ⟨a.div b, by rw [Dual.checkedDiv, if_neg h]⟩
  · intro h1 h2
    rw [Dual.checkedPow, if_pos ⟨h1, h2⟩]
  · intro h
    refine ⟨⟨a.re ^ (q : ℝ), a.eps * (q : ℝ) * a.re ^ ((q : ℝ) - 1)⟩, ?_⟩
    rw [Dual.checkedPow, if_neg fun hc => absurd hc.1 (not_lt.mpr h)]

/-- The rational 1/2, given by its reduced numerator and denominator. -/
def oneHalfQ : ℚ := ⟨1, 2, by decide, by decide⟩

/-- Witness for `checked_ops_typed_errors`: dividing by a dual with zero real
part reports `divisionByZero`, and raising a dual with real part −2 to the
power 1/2 reports `domainError`. -/
theorem checked_ops_typed_errors_witness :
    (Dual.mk 1 2).checkedDiv ⟨0, 5⟩ = Except.error DualError.divisionByZero ∧
      (Dual.mk (-2) 1).checkedPow oneHalfQ = Except.error DualError.domainError :=
  ⟨(checked_ops_typed_errors ⟨1, 2⟩ ⟨0, 5⟩ oneHalfQ).1.mpr rfl,
    (checked_ops_typed_errors ⟨-2, 1⟩ ⟨0, 5⟩ oneHalfQ).2.2.1 (by norm_num) (by decide)⟩

/-- Claim C9 (showing the divergence): the `PyPengRobinson` constructor's
length check inspects only `critical_temperature`, `critical_pressure` and
`acentric_factor`.  With the propane parameters but a two-entry
`molar_weight`, the per-component sequences have mismatched lengths yet the
check passes and a model object is produced, contradicting the constructor's
own docstring; a mismatch among the three checked sequences is rejected with
the `ValueError` message. -/
theorem pengRobinson_init_skips_molar_weight :
    (pyPengRobinsonInit [370] [4250000] [153] [44, 18]).isOk = true ∧
      (pyPengRobinsonInit [370, 500] [4250000] [153, 2] [44]).isOk = false := by
  constructor
  · decide
  · decide

/-- Claim C2: two consecutive identical derivative queries on one state
return bit-identical values; the second query performs zero Helmholtz
invocations and leaves the state unchanged.  The cache is populated lazily —
a fresh state starts with an empty cache and the first query inserts the
key — and it lives inside the state instance, whose variables a query never
mutates. -/
theorem caching_idempotent (m : HelmholtzModel) (s : StateQ)
    (k : DerivSig × Contributions) :
    ((s.query m k).state.query m k).value = (s.query m k).value ∧
    ((s.query m k).state.query m k).invocations = 0 ∧
    ((s.query m k).state.query m k).state = (s.query m k).state ∧
    lookupCache (s.query m k).state.cache k = some (s.query m k).value ∧
    (mkStateQ s.moles s.volume s.temperature).cache = [] ∧
    (s.query m k).state.moles = s.moles ∧
    (s.query m k).state.volume = s.volume ∧
    (s.query m k).state.temperature = s.temperature := by
  cases h : lookupCache s.cache k with
  | none => simp [StateQ.query, h, mkStateQ]
  | some v => simp [StateQ.query, h, mkStateQ]

/-- Splitting a raw derivative over the additive Helmholtz decomposition:
the `Total` contribution is the sum of the ideal-gas and the residual one,
for every derivative signature. -/
theorem rawDeriv_total_split (m : HelmholtzModel) (N : List ℚ) (V T : ℚ)
    (sig : DerivSig) :
    rawDeriv m .Total N V T sig =
      rawDeriv m .IdealGas N V T sig + rawDeriv m .Residual N V T sig := by
  cases sig <;> simp [rawDeriv, helm0, helm1, helm2]

/-- Claim C4: for every state and each property with a contribution selector,
the `Total` result equals the ideal-gas result plus the fixed-volume residual
result — exactly, so in particular to solver tolerance. -/
theorem contributions_additive (m : HelmholtzModel) (s : StateQ) :
    s.helmholtzOf m .Total = s.helmholtzOf m .IdealGas + s.helmholtzOf m .Residual ∧
    s.pressureOf m .Total = s.pressureOf m .IdealGas + s.pressureOf m .Residual ∧
    s.molarEntropy m .Total = s.molarEntropy m .IdealGas + s.molarEntropy m .Residual := by
  refine ⟨?_, ?_, ?_⟩ <;>
    simp only [StateQ.helmholtzOf, StateQ.pressureOf, StateQ.molarEntropy,
      rawDeriv_total_split] <;> ring

/-- Claim C7: each property query builds model inputs of the minimal dual
order its derivative signature needs — plain scalars for `helmholtz_energy`,
first-order duals with exactly the differentiated variable's non-real part
set to one for `pressure` and `molar_entropy`, hyper-duals with the three
seed patterns the notebook prints for `joule_thomson` — and invokes the
Helmholtz contract once per requested raw derivative (three times for the
three second derivatives of `joule_thomson`). -/
theorem minimal_dual_order (m : HelmholtzModel) (s : StateQ) :
    (helmholtzTrace m s).inputs = [⟨s.moles, s.volume, s.temperature⟩] ∧
    (helmholtzTrace m s).invocations = 1 ∧
    (pressureTrace m s).inputs = [⟨molesD s.moles, ⟨s.volume, 1⟩, ⟨s.temperature, 0⟩⟩] ∧
    (pressureTrace m s).invocations = 1 ∧
    (entropyTrace m s).inputs = [⟨molesD s.moles, ⟨s.volume, 0⟩, ⟨s.temperature, 1⟩⟩] ∧
    (entropyTrace m s).invocations = 1 ∧
    (∀ d ∈ molesD s.moles, d.eps = 0) ∧
    (jouleThomsonTrace m s).inputs =
      [⟨molesH s.moles, ⟨s.volume, 1, 0, 0⟩, ⟨s.temperature, 0, 1, 0⟩⟩,
       ⟨molesH s.moles, ⟨s.volume, 1, 1, 0⟩, ⟨s.temperature, 0, 0, 0⟩⟩,
       ⟨molesH s.moles, ⟨s.volume, 0, 0, 0⟩, ⟨s.temperature, 1, 1, 0⟩⟩] ∧
    (jouleThomsonTrace m s).invocations = 3 ∧
    (∀ d ∈ molesH s.moles, d.eps1 = 0 ∧ d.eps2 = 0 ∧ d.eps12 = 0) := by
  refine ⟨rfl, rfl, rfl, rfl, rfl, rfl, ?_, rfl, rfl, ?_⟩
  · intro d hd
    simp only [molesD, List.mem_map] at hd
    obtain ⟨n, _, rfl⟩ := hd
    rfl
  · intro d hd
    simp only [molesH, List.mem_map] at hd
    obtain ⟨n, _, rfl⟩ := hd
    exact ⟨rfl, rfl, rfl⟩

/-- Claim C10: a pure-substance state constructed without an explicit amount
of substance has a total amount equal to the inverse of Avogadro's number,
so the moles vector handed to the model's `helmholtz_energy` function is
`[1.0]` (one particle), and every derived property is computed from that
default amount. -/
theorem default_moles_inverse_avogadro (V T : ℚ) :
    (StateQ.makePure none V T).moles = [1] ∧
    (StateQ.makePure none V T).totalMolesSI = 1 / NAvogadro ∧
    ∀ m : HelmholtzModel,
      (helmholtzTrace m (StateQ.makePure none V T)).inputs = [⟨[1], V, T⟩] := by
  have h1 : NAvogadro⁻¹ * NAvogadro = 1 :=
    inv_mul_cancel₀ (by unfold NAvogadro; norm_num)
  have hm : (StateQ.makePure none V T).moles = [1] := by
    simp [StateQ.makePure, h1]
  refine ⟨hm, ?_, fun m => ?_⟩
  · simp [StateQ.totalMolesSI, hm]
  · simp [helmholtzTrace, StateQ.makePure, h1]

@[simp] theorem pressure_mkStateQ (m : HelmholtzModel) (N : List ℚ) (V T : ℚ) :
    (mkStateQ N V T).pressure m = presFn m N V T := rfl

@[simp] theorem chemicalPotential_mkStateQ (m : HelmholtzModel) (N : List ℚ) (V T : ℚ) :
    (mkStateQ N V T).chemicalPotential m = muFn m N V T := rfl

/-- Any volume the Newton density solver returns meets the pressure
tolerance: the solver accepts a candidate only after checking the residual. -/
theorem newtonV_meets_tol (m : HelmholtzModel) (N : List ℚ) (T p tol : ℚ) :
    ∀ (fuel : Nat) (V0 V : ℚ), newtonV m N T p tol fuel V0 = some V →
      |presFn m N V T - p| ≤ tol := by
  intro fuel
  induction fuel with
  | zero =>
      intro V0 V h
      simp [newtonV] at h
  | succ n ih =>
      intro V0 V h
      rw [newtonV] at h
      split at h
      · rename_i hacc
        injection h with h
        subst h
        exact hacc.2.2
      · split at h
        · exact Option.noConfusion h
        · exact ih _ _ h

/-- Claim C3: every state the (N, T, p) constructor returns — for any
density initialization, explicit or defaulted — reports a pressure within
the solver tolerance of the requested one. -/
theorem pressure_round_trip (m : HelmholtzModel) (N : List ℚ) (T p tol : ℚ)
    (maxIter : Nat) (dinit : Option DensityInit) (s : StateQ)
    (h : fromTP m N T p tol maxIter dinit = some s) :
    |s.pressure m - p| ≤ tol := by
  cases dinit with
  | some di =>
      rw [fromTP] at h
      cases hV : newtonV m N T p tol maxIter (initialVolume m N T p di) with
      | none => rw [hV] at h; exact Option.noConfusion h
      | some V =>
          rw [hV] at h
          injection h with h
          subst h
          simpa using newtonV_meets_tol m N T p tol maxIter _ V hV
  | none =>
      rw [fromTP] at h
      cases hv : newtonV m N T p tol maxIter (vaporStartV N T p) with
      | none =>
          rw [hv] at h
          cases hl : newtonV m N T p tol maxIter (liquidStartV m N) with
          | none => rw [hl] at h; exact Option.noConfusion h
          | some Vl =>
              rw [hl] at h
              injection h with h
              subst h
              simpa using newtonV_meets_tol m N T p tol maxIter _ Vl hl
      | some Vv =>
          rw [hv] at h
          cases hl : newtonV m N T p tol maxIter (liquidStartV m N) with
          | none =>
              rw [hl] at h
              injection h with h
              subst h
              simpa using newtonV_meets_tol m N T p tol maxIter _ Vv hv
          | some Vl =>
              rw [hl] at h
              injection h with h
              subst h
              by_cases hg : gibbsAt m N T p Vv ≤ gibbsAt m N T p Vl
              · rw [if_pos hg]
                simpa using newtonV_meets_tol m N T p tol maxIter _ Vv hv
              · rw [if_neg hg]
                simpa using newtonV_meets_tol m N T p tol maxIter _ Vl hl

/-- Claim C1: when `density_initialization` is unspecified the solver
attempts both the low-density and the high-density start; whenever both
converge (in particular to distinct locally stable roots), the constructed
state is one of the two roots and its Gibbs energy at fixed (N, T, p) is a
minimum over both — the globally stable root, never merely the first to
converge. -/
theorem stable_root_selection (m : HelmholtzModel) (N : List ℚ) (T p tol : ℚ)
    (maxIter : Nat) (Vv Vl : ℚ)
    (hv : newtonV m N T p tol maxIter (vaporStartV N T p) = some Vv)
    (hl : newtonV m N T p tol maxIter (liquidStartV m N) = some Vl) :
    ∃ s, fromTP m N T p tol maxIter none = some s ∧
      (s.volume = Vv ∨ s.volume = Vl) ∧
      gibbsAt m N T p s.volume ≤ gibbsAt m N T p Vv ∧
      gibbsAt m N T p s.volume ≤ gibbsAt m N T p Vl := by
  by_cases hg : gibbsAt m N T p Vv ≤ gibbsAt m N T p Vl
  · refine ⟨mkStateQ N Vv T, ?_, Or.inl rfl, le_refl _, hg⟩
    rw [fromTP, hv, hl]
    show some (mkStateQ N (if gibbsAt m N T p Vv ≤ gibbsAt m N T p Vl then Vv else Vl) T)
      = some (mkStateQ N Vv T)
    rw [if_pos hg]
  · refine ⟨mkStateQ N Vl T, ?_, Or.inr rfl, le_of_not_le hg, le_refl _⟩
    rw [fromTP, hv, hl]
    show some (mkStateQ N (if gibbsAt m N T p Vv ≤ gibbsAt m N T p Vl then Vv else Vl) T)
      = some (mkStateQ N Vl T)
    rw [if_neg hg]

/-- Consistency bundle guaranteed for every equilibrium the fixed-temperature
loop accepts. -/
theorem pureTLoop_consistent (m : HelmholtzModel) (T tol : ℚ) :
    ∀ (fuel : Nat) (Vv Vl : ℚ) (eq : PhaseEq),
      pureTLoop m T tol fuel Vv Vl = some eq →
      eq.vapor.temperature = eq.liquid.temperature ∧
      eq.vapor.moles = [1] ∧ eq.liquid.moles = [1] ∧
      0 < eq.vapor.volume ∧ 0 < eq.liquid.volume ∧
      eq.liquid.volume < eq.vapor.volume ∧
      |eq.liquid.pressure m - eq.vapor.pressure m| ≤ tol ∧
      |eq.liquid.chemicalPotential m - eq.vapor.chemicalPotential m| ≤ tol := by
  intro fuel
  induction fuel with
  | zero =>
      intro Vv Vl eq h
      simp [pureTLoop] at h
  | succ n ih =>
      intro Vv Vl eq h
      rw [pureTLoop] at h
      split at h
      · rename_i hacc
        obtain ⟨h1, h2, h3, h4, h5⟩ := hacc
        injection h with h
        subst h
        exact ⟨rfl, rfl, rfl, h1, h2, h3, by simpa using h4, by simpa using h5⟩
      · cases hstep : vleStep m T Vv Vl with
        | none =>
            rw [hstep] at h
            exact Option.noConfusion h
        | some pr =>
            obtain ⟨Vv2, Vl2⟩ := pr
            rw [hstep] at h
            exact ih Vv2 Vl2 eq h

/-- Consistency bundle guaranteed for every equilibrium the fixed-pressure
loop accepts. -/
theorem purePLoop_consistent (m : HelmholtzModel) (pT tol : ℚ) :
    ∀ (fuel : Nat) (T Vv Vl : ℚ) (eq : PhaseEq),
      purePLoop m pT tol fuel T Vv Vl = some eq →
      eq.vapor.temperature = eq.liquid.temperature ∧
      eq.vapor.moles = [1] ∧ eq.liquid.moles = [1] ∧
      0 < eq.vapor.volume ∧ 0 < eq.liquid.volume ∧
      eq.liquid.volume < eq.vapor.volume ∧
      |eq.liquid.pressure m - eq.vapor.pressure m| ≤ tol ∧
      |eq.liquid.chemicalPotential m - eq.vapor.chemicalPotential m| ≤ tol := by
  intro fuel
  induction fuel with
  | zero =>
      intro T Vv Vl eq h
      simp [purePLoop] at h
  | succ n ih =>
      intro T Vv Vl eq h
      rw [purePLoop] at h
      split at h
      · rename_i hacc
        obtain ⟨h1, h2, h3, h4, h5, h6⟩ := hacc
        injection h with h
        subst h
        exact ⟨rfl, rfl, rfl, h1, h2, h3, by simpa using h4, by simpa using h5⟩
      · cases hstep : vleStep m T Vv Vl with
        | none =>
            rw [hstep] at h
            exact Option.noConfusion h
        | some pr =>
            obtain ⟨Vv2, Vl2⟩ := pr
            rw [hstep] at h
            replace h :
                (if presFn m [1] Vv2 T ≤ 0 then none
                  else purePLoop m pT tol n (T * pT / presFn m [1] Vv2 T) Vv2 Vl2)
                  = some eq := h
            split at h
            · exact Option.noConfusion h
            · exact ih _ _ _ eq h

/-- Claim C6: every phase equilibrium the pure-substance VLE solver
constructs — at fixed temperature or at fixed pressure — has mutually
consistent member states at the moment of construction: equal temperature,
pressures equal to within the solver tolerance, chemical potentials equal to
within the solver tolerance, and a liquid density strictly above the vapor
density. -/
theorem vle_states_consistent (m : HelmholtzModel) (T pT tol T0 : ℚ)
    (maxIter : Nat) (eq : PhaseEq)
    (h : PhaseEquilibrium.pure_t m T tol maxIter = some eq ∨
         PhaseEquilibrium.pure_p m pT tol T0 maxIter = some eq) :
    eq.vapor.temperature = eq.liquid.temperature ∧
    |eq.liquid.pressure m - eq.vapor.pressure m| ≤ tol ∧
    |eq.liquid.chemicalPotential m - eq.vapor.chemicalPotential m| ≤ tol ∧
    eq.vapor.densityOf < eq.liquid.densityOf := by
  have key :
      eq.vapor.temperature = eq.liquid.temperature ∧
      eq.vapor.moles = [1] ∧ eq.liquid.moles = [1] ∧
      0 < eq.vapor.volume ∧ 0 < eq.liquid.volume ∧
      eq.liquid.volume < eq.vapor.volume ∧
      |eq.liquid.pressure m - eq.vapor.pressure m| ≤ tol ∧
      |eq.liquid.chemicalPotential m - eq.vapor.chemicalPotential m| ≤ tol := by
    rcases h with h | h
    · exact pureTLoop_consistent m T tol maxIter _ _ eq h
    · exact purePLoop_consistent m pT tol maxIter _ _ _ eq h
  obtain ⟨ht, hmv, hml, hv0, hl0, hlt, hp, hmu⟩ := key
  refine ⟨ht, hp, hmu, ?_⟩
  have hd : (1 : ℚ) / eq.vapor.volume < 1 / eq.liquid.volume :=
    one_div_lt_one_div_of_lt hl0 hlt
  simpa [StateQ.densityOf, hmv, hml] using hd

/-- A concrete Helmholtz model for the solver witnesses: zero energy,
constant unit pressure, constant chemical potential, unit maximum density. -/
def mW : HelmholtzModel where
  idealGas0 := fun _ => 0
  residual0 := fun _ => 0
  idealGas1 := fun _ => ⟨0, -1⟩
  residual1 := fun _ => ⟨0, 0⟩
  idealGas2 := fun _ => ⟨0, 0, 0, 0⟩
  residual2 := fun _ => ⟨0, 0, 0, 0⟩
  maxDensity := 1

theorem presFn_mW (N : List ℚ) (V T : ℚ) : presFn mW N V T = 1 := by
  simp [presFn, rawDeriv, helm1, mW]

theorem muFn_mW (N : List ℚ) (V T : ℚ) : muFn mW N V T = -1 := by
  simp [muFn, rawDeriv, helm1, mW]

theorem gibbsAt_mW (N : List ℚ) (T p V : ℚ) : gibbsAt mW N T p V = p * V := by
  simp [gibbsAt, helm0, mW]

/-- The Newton density solver accepts a starting volume that already meets
the physical and tolerance checks. -/
theorem newtonV_accept (m : HelmholtzModel) (N : List ℚ) (T p tol : ℚ)
    (fuel : Nat) (V : ℚ)
    (h : 0 < V ∧ N.sum / V ≤ m.maxDensity ∧ |presFn m N V T - p| ≤ tol) :
    newtonV m N T p tol (fuel + 1) V = some V := by
  rw [newtonV, if_pos h]

/-- The fixed-temperature VLE loop accepts a starting pair that already meets
the consistency checks. -/
theorem pureTLoop_accept (m : HelmholtzModel) (T tol : ℚ) (fuel : Nat) (Vv Vl : ℚ)
    (h : 0 < Vv ∧ 0 < Vl ∧ Vl < Vv ∧
        |presFn m [1] Vl T - presFn m [1] Vv T| ≤ tol ∧
        |muFn m [1] Vl T - muFn m [1] Vv T| ≤ tol) :
    pureTLoop m T tol (fuel + 1) Vv Vl = some ⟨mkStateQ [1] Vv T, mkStateQ [1] Vl T⟩ := by
  rw [pureTLoop, if_pos h]

/-- Witness for `stable_root_selection`: with the constant-pressure model
both the vapor start (volume 300) and the liquid start (volume 10/9)
converge, and the constructor returns the root of lower Gibbs energy. -/
theorem stable_root_selection_witness :
    newtonV mW [1] 300 1 1 5 (vaporStartV [1] 300 1) = some 300 ∧
    newtonV mW [1] 300 1 1 5 (liquidStartV mW [1]) = some (10 / 9) ∧
    ∃ s, fromTP mW [1] 300 1 1 5 none = some s ∧
      (s.volume = 300 ∨ s.volume = 10 / 9) ∧
      gibbsAt mW [1] 300 1 s.volume ≤ gibbsAt mW [1] 300 1 300 ∧
      gibbsAt mW [1] 300 1 s.volume ≤ gibbsAt mW [1] 300 1 (10 / 9) := by
  have hvs : vaporStartV [1] 300 1 = 300 := by norm_num [vaporStartV]
  have hls : liquidStartV mW [1] = 10 / 9 := by norm_num [liquidStartV, mW]
  have hv : newtonV mW [1] 300 1 1 5 (vaporStartV [1] 300 1) = some 300 := by
    rw [hvs]
    exact newtonV_accept mW [1] 300 1 1 4 300
      ⟨by norm_num, by norm_num [mW], by norm_num [presFn_mW]⟩
  have hl : newtonV mW [1] 300 1 1 5 (liquidStartV mW [1]) = some (10 / 9) := by
    rw [hls]
    exact newtonV_accept mW [1] 300 1 1 4 (10 / 9)
      ⟨by norm_num, by norm_num [mW], by norm_num [presFn_mW]⟩
  exact ⟨hv, hl, stable_root_selection mW [1] 300 1 1 5 300 (10 / 9) hv hl⟩

/-- Witness for `pressure_round_trip`: the state built at (T, p) = (300, 1)
with a liquid start reports pressure 1 within the tolerance. -/
theorem pressure_round_trip_witness :
    fromTP mW [1] 300 1 1 5 (some DensityInit.liquid) = some (mkStateQ [1] (10 / 9) 300) ∧
      |(mkStateQ [1] (10 / 9) 300).pressure mW - 1| ≤ 1 := by
  have hls : initialVolume mW [1] 300 1 DensityInit.liquid = 10 / 9 := by
    norm_num [initialVolume, liquidStartV, mW]
  have h : fromTP mW [1] 300 1 1 5 (some DensityInit.liquid)
      = some (mkStateQ [1] (10 / 9) 300) := by
    rw [fromTP, hls]
    rw [newtonV_accept mW [1] 300 1 1 4 (10 / 9)
      ⟨by norm_num, by norm_num [mW], by norm_num [presFn_mW]⟩]
    rfl
  exact ⟨h, pressure_round_trip mW [1] 300 1 1 5 (some DensityInit.liquid) _ h⟩

/-- The phase equilibrium the VLE witness produces. -/
def vleEqW : PhaseEq := ⟨mkStateQ [1] (10000 / 9) 300, mkStateQ [1] (10 / 9) 300⟩

/-- Witness for `vle_states_consistent`: the fixed-temperature VLE solver on
the constant-pressure model returns an equilibrium whose liquid density
exceeds its vapor density. -/
theorem vle_states_consistent_witness :
    PhaseEquilibrium.pure_t mW 300 1 5 = some vleEqW ∧
      vleEqW.vapor.densityOf < vleEqW.liquid.densityOf := by
  have hls : liquidStartV mW [1] = 10 / 9 := by norm_num [liquidStartV, mW]
  have h : PhaseEquilibrium.pure_t mW 300 1 5 = some vleEqW := by
    rw [PhaseEquilibrium.pure_t, hls]
    have hacc := pureTLoop_accept mW 300 1 4 (1000 * (10 / 9)) (10 / 9)
      ⟨by norm_num, by norm_num, by norm_num, by norm_num [presFn_mW],
        by norm_num [muFn_mW]⟩
    rw [hacc]
    norm_num [vleEqW, mkStateQ]
  exact ⟨h, (vle_states_consistent mW 300 1 1 300 5 vleEqW (Or.inl h)).2.2.2⟩
